import Mathlib

/-!
Verification development for the Woo-to-SP migration tool.

The Python sources are shallowly embedded as executable Lean definitions:

* strings are `String`/`List Char`; the specific regular expressions used by
  the source (`meta:([^:]+):([^|]+)`, `name:([^|]+)`, `quantity:(\d+)`,
  `total:(\d+\.?\d*)`, `sku:([^|]+)` and the `_pao_ids` triple pattern) are
  deterministic once greediness is unfolded, so each is embedded as a direct
  character-list scanner with the same left-to-right search semantics as
  CPython's `re.search` / `re.findall` / `re.finditer`;
* Python `float` values coming out of these grammars are modelled as `ℚ`
  (the grammars only produce unsigned decimal literals, and no claim in
  scope depends on binary rounding);
* Python dicts keyed by strings are association lists with first-insertion
  order and last-assignment-wins update;
* `hashlib.md5(...).hexdigest()` (an external library call) is a parameter
  `md5hex : String → String` of the collection-handle embedding, constrained
  where needed by the hypothesis that a hex digest has 32 hex characters.
-/

namespace Woo

/-- Python `str.strip()` whitespace set (ASCII part, which is all the data
in scope uses). -/
def isPySpace (c : Char) : Bool :=
  c = ' ' || c = '\t' || c = '\n' || c = '\r' || c = '\x0b' || c = '\x0c'

/-- Python `str.strip()` on a character list. -/
def stripChars (l : List Char) : List Char :=
  ((l.dropWhile isPySpace).reverse.dropWhile isPySpace).reverse

/-- Python `str.strip()`. -/
def pyStrip (s : String) : String :=
  String.mk (stripChars s.data)

/-- Value of a digit run, as produced by Python `int(...)` on a `\d+` group. -/
def natOfDigits (ds : List Char) : Nat :=
  ds.foldl (fun n c => 10 * n + (c.toNat - 48)) 0

/-- Value of a `\d+\.?\d*` group, as produced by Python `float(...)`
(modelled exactly in `ℚ`). -/
def ratOfNumChars (g : List Char) : ℚ :=
  let intPart := g.takeWhile Char.isDigit
  match g.dropWhile Char.isDigit with
  | '.' :: frac => (natOfDigits intPart : ℚ) + (natOfDigits frac : ℚ) / ((10 : ℚ) ^ frac.length)
  | _ => (natOfDigits intPart : ℚ)

/-- Match a literal character list at the head of the input, returning the
remainder on success. -/
def matchLit : List Char → List Char → Option (List Char)
  | [], s => some s
  | _ :: _, [] => none
  | c :: cs, d :: ds => if c = d then matchLit cs ds else none

/-- One-or-more characters satisfying `p`, taken greedily (maximal run);
fails when the first character does not satisfy `p`.  This is the
deterministic unfolding of a greedy `[...]+` group. -/
def group1P (p : Char → Bool) (s : List Char) : Option (List Char × List Char) :=
  let run := s.takeWhile p
  if run.isEmpty then none else some (run, s.dropWhile p)

/-- `re.search` driver: try the matcher at every position from the left,
returning the first success.  `fuel` is always instantiated with
`length + 1`, which covers every start position. -/
def reSearch (m : List Char → Option α) : Nat → List Char → Option α
  | 0, _ => none
  | fuel + 1, s =>
    match m s with
    | some a => some a
    | none =>
      match s with
      | [] => none
      | _ :: rest => reSearch m fuel rest

/-- `re.findall` / `re.finditer` driver: scan from the left; on a match
(which in all uses consumes at least one character) continue at the match
end, otherwise advance one character. -/
def reFindAll (m : List Char → Option (α × List Char)) : Nat → List Char → List α
  | 0, _ => []
  | fuel + 1, s =>
    match m s with
    | some (a, s') => a :: reFindAll m fuel s'
    | none =>
      match s with
      | [] => []
      | _ :: rest => reFindAll m fuel rest

/-- Python dict assignment `d[k] = v` on an association list: overwrite in
place when the key exists, else append (insertion order preserved). -/
def dictInsert (m : List (String × α)) (k : String) (v : α) : List (String × α) :=
  if m.any (fun p => p.1 = k) then
    m.map (fun p => if p.1 = k then (k, v) else p)
  else
    m ++ [(k, v)]

/-- Python dict lookup `d.get(k)` on an association list. -/
def alookup (m : List (String × α)) (k : String) : Option α :=
  match m.find? (fun p => p.1 = k) with
  | some p => some p.2
  | none => none

/-- Python `str.startswith` for the patterns in scope. -/
def strStartsWith (pre s : String) : Bool :=
  pre.data.isPrefixOf s.data

/-! ## `orders/orders.py`: the slot mini-grammar scanners -/

/-- Matcher for one occurrence of `meta:([^:]+):([^|]+)` at the current
position, returning the two groups and the remainder after the match. -/
def matchMetaAt (s : List Char) : Option ((List Char × List Char) × List Char) := do
  let s ← matchLit "meta:".data s
  let (key, s) ← group1P (fun c => ¬ c = ':') s
  let s ← matchLit [':'] s
  let (val, s) ← group1P (fun c => ¬ c = '|') s
  return ((key, val), s)

/-- `re.findall(r'meta:([^:]+):([^|]+)', meta_str)` from
`parse_meta_info`. -/
def metaPairs (meta_str : String) : List (List Char × List Char) :=
  reFindAll matchMetaAt (meta_str.data.length + 1) meta_str.data

/-- The `meta_values` dict of `parse_meta_info`: first pass over all meta
pairs, values stripped, later occurrences of a key overwriting earlier
ones. -/
def metaValues (meta_str : String) : List (String × String) :=
  (metaPairs meta_str).foldl
    (fun m kv => dictInsert m (String.mk kv.1) (pyStrip (String.mk kv.2))) []

/-- Matcher for `meta:_pao_ids:([^|]+)` at the current position. -/
def matchPaoIdsAt (s : List Char) : Option (List Char) := do
  let s ← matchLit "meta:_pao_ids:".data s
  let (payload, _) ← group1P (fun c => ¬ c = '|') s
  return payload

/-- The lazy tail `.*?s:9:"raw_price";d:(\d+)` of the `_pao_ids` triple
pattern: consume as few characters as possible (none of them a newline,
since `re.DOTALL` is not set) before the raw-price literal followed by at
least one digit; the digit group is greedy.  Returns the digit group and
the remainder after the whole match. -/
def lazyRawPrice : Nat → List Char → Option (List Char × List Char)
  | 0, _ => none
  | fuel + 1, s =>
    match (do
      let s1 ← matchLit "s:9:\"raw_price\";d:".data s
      group1P Char.isDigit s1) with
    | some r => some r
    | none =>
      match s with
      | [] => none
      | c :: rest => if c = '\n' then none else lazyRawPrice fuel rest

/-- Matcher for one `_pao_ids` triple
`s:3:"key";s:\d+:"([^"]+)";s:5:"value";s:\d+:"([^"]+)";.*?s:9:"raw_price";d:(\d+)`
at the current position, returning (key group, price digit group) and the
remainder after the match (the `value` group is captured by the source but
unused). -/
def matchPaoAt (s : List Char) : Option ((List Char × List Char) × List Char) := do
  let s0 ← matchLit "s:3:\"key\";s:".data s
  let (_, s0) ← group1P Char.isDigit s0
  let s0 ← matchLit ":\"".data s0
  let (key, s0) ← group1P (fun c => ¬ c = '"') s0
  let s0 ← matchLit "\";".data s0
  let s0 ← matchLit "s:5:\"value\";s:".data s0
  let (_, s0) ← group1P Char.isDigit s0
  let s0 ← matchLit ":\"".data s0
  let (_, s0) ← group1P (fun c => ¬ c = '"') s0
  let s0 ← matchLit "\";".data s0
  let (ds, s1) ← lazyRawPrice (s0.length + 1) s0
  return ((key, ds), s1)

/-- The `prices` dict built from one `_pao_ids` payload:
`prices[key] = float(price)` over `re.finditer` of the triple pattern. -/
def paoPricesOfPayload (payload : List Char) : List (String × ℚ) :=
  (reFindAll matchPaoAt (payload.length + 1) payload).foldl
    (fun m kd => dictInsert m (String.mk kd.1) ((natOfDigits kd.2 : Nat) : ℚ)) []

/-- The `prices` dict of `parse_meta_info`: empty unless a
`meta:_pao_ids:` payload is found in the slot text. -/
def paoPrices (meta_str : String) : List (String × ℚ) :=
  match reSearch matchPaoIdsAt (meta_str.data.length + 1) meta_str.data with
  | none => []
  | some payload => paoPricesOfPayload payload

/-! ## `orders/orders.py`: meta-item promotion -/

/-- One row of the `meta_mapping` configuration (source field names
`name_prefix` / `name_suffix` / `sku_prefix` / `price_field`, renamed here
only because Lean reserves some of those suffixes). -/
structure MetaRule where
  namePre : String
  nameSuf : String
  skuPre : String
  priceField : String
deriving DecidableEq, Repr

/-- `OrderMigrationTool.format_meta_name`: format a meta item name from the
mapping; `"{value} {suffix}"` when the rule has a suffix and no prefix,
else prefix/value/suffix joined by single spaces (Python string truthiness
is non-emptiness). -/
def format_meta_name (mapping : List (String × MetaRule)) (key value : String) : String :=
  match alookup mapping key with
  | none => value
  | some rule =>
    if ¬ rule.nameSuf = "" ∧ rule.namePre = "" then
      value ++ " " ++ rule.nameSuf
    else
      String.intercalate " "
        ((if ¬ rule.namePre = "" then [rule.namePre] else []) ++ [value] ++
          (if ¬ rule.nameSuf = "" then [rule.nameSuf] else []))

/-- A line item as assembled by `parse_meta_info` / `convert_orders`. -/
structure Item where
  name : String
  quantity : Nat
  price : ℚ
  sku : String
  requiresShipping : Bool
  taxable : Bool
deriving DecidableEq, Repr

/-- `value.lower().replace(' ', '-')`: the slug used in derived-item
SKUs. -/
def slugify (value : String) : String :=
  String.mk ((value.data.map Char.toLower).map (fun c => if c = ' ' then '-' else c))

/-- Body of the meta-item loop of `parse_meta_info` for one `meta_values`
entry: skipped when the key is not in the mapping or is a `pa_` variant
attribute, otherwise promoted to a derived line item. -/
def metaItemFor (mapping : List (String × MetaRule)) (prices : List (String × ℚ))
    (kv : String × String) : Option Item :=
  match alookup mapping kv.1 with
  | none => none
  | some rule =>
    if strStartsWith "pa_" kv.1 then none
    else some
      { name := format_meta_name mapping kv.1 kv.2
        quantity := 1
        price := (alookup prices kv.1).getD 0
        sku := rule.skuPre ++ slugify kv.2
        requiresShipping := true
        taxable := true }

/-- `OrderMigrationTool.parse_meta_info`: meta pairs are collected into
`meta_values`, add-on prices extracted from a `_pao_ids` payload, and each
mapped non-variant key becomes one derived item. -/
def parse_meta_info (mapping : List (String × MetaRule)) (meta_str : String) : List Item :=
  if meta_str = "" then []
  else (metaValues meta_str).filterMap (metaItemFor mapping (paoPrices meta_str))

/-! ## `orders/orders.py`: slot extraction and row conversion -/

/-- Matcher for `name:([^|]+)` at the current position. -/
def matchNameAt (s : List Char) : Option (List Char) := do
  let s ← matchLit "name:".data s
  let (g, _) ← group1P (fun c => ¬ c = '|') s
  return g

/-- Matcher for `sku:([^|]+)` at the current position. -/
def matchSkuAt (s : List Char) : Option (List Char) := do
  let s ← matchLit "sku:".data s
  let (g, _) ← group1P (fun c => ¬ c = '|') s
  return g

/-- Matcher for `quantity:(\d+)` at the current position. -/
def matchQtyAt (s : List Char) : Option (List Char) := do
  let s ← matchLit "quantity:".data s
  let (g, _) ← group1P Char.isDigit s
  return g

/-- Matcher for `total:(\d+\.?\d*)` at the current position (greedy digit
run, optional dot, greedy digit run). -/
def matchTotalAt (s : List Char) : Option (List Char) := do
  let s ← matchLit "total:".data s
  let (d1, s) ← group1P Char.isDigit s
  match s with
  | '.' :: s2 => return d1 ++ '.' :: s2.takeWhile Char.isDigit
  | _ => return d1

/-- The main product data extracted from one line-item slot. -/
structure SlotInfo where
  name : String
  quantity : Nat
  total : ℚ
  sku : String
deriving DecidableEq, Repr

/-- The `name_match`/`qty_match`/`total_match`/`sku_match` extraction of
`convert_orders` on one slot: `none` exactly when `name`, `quantity` and
`total` are not all present and well-formed (`sku` is optional and
defaults to the empty string). -/
def parseSlot (line_item : String) : Option SlotInfo :=
  let s := line_item.data
  let fuel := s.length + 1
  match reSearch matchNameAt fuel s, reSearch matchQtyAt fuel s,
        reSearch matchTotalAt fuel s with
  | some n, some q, some t =>
    some
      { name := pyStrip (String.mk n)
        quantity := natOfDigits q
        total := ratOfNumChars t
        sku :=
          match reSearch matchSkuAt fuel s with
          | some k => pyStrip (String.mk k)
          | none => "" }
  | _, _, _ => none

/-- The `main_item` dict of `convert_orders`: unit price is
`total / quantity` when the quantity is positive, else `0`. -/
def mainItem (info : SlotInfo) : Item :=
  { name := info.name
    quantity := info.quantity
    price := if 0 < info.quantity then info.total / (info.quantity : ℚ) else 0
    sku := info.sku
    requiresShipping := true
    taxable := true }

/-- One source order row, restricted to the data the conversion loop
reads: the line-item cells (by column name; `none` stands for an absent
column or a NaN cell, both of which the source skips) and the order-level
totals. -/
structure SourceRow where
  cells : String → Option String
  taxTotal : ℚ
  shippingTotal : ℚ
  orderTotal : ℚ

/-- Replace one cell of a source row. -/
def setCell (row : SourceRow) (k : String) (v : Option String) : SourceRow :=
  { row with cells := fun k' => if k' = k then v else row.cells k' }

/-- Loop body of the slot loop in `convert_orders`: a present, parseable
slot appends its main item followed by its derived meta items. -/
def slotStep (mapping : List (String × MetaRule)) (cells : String → Option String)
    (acc : List Item) (i : Nat) : List Item :=
  match cells ("line_item_" ++ toString i) with
  | none => acc
  | some s =>
    match parseSlot s with
    | none => acc
    | some info => acc ++ [mainItem info] ++ parse_meta_info mapping s

/-- The `order_items` list of `convert_orders`: `for i in range(1, 20)`
over the `line_item_i` cells. -/
def orderItems (mapping : List (String × MetaRule)) (row : SourceRow) : List Item :=
  (List.range' 1 19).foldl (slotStep mapping row.cells) []

/-- One output row of the Shopify order CSV, restricted to the columns the
claims are about; the three order-total columns are `Option` because the
source only writes them on the first item of an order. -/
structure OutputRow where
  lineitemName : String
  lineitemQuantity : Nat
  lineitemPrice : ℚ
  lineitemSku : String
  tax1Value : Option ℚ
  shippingLinePrice : Option ℚ
  total : Option ℚ
deriving DecidableEq, Repr

/-- Python `enumerate`, starting from a given index. -/
def enumFromIdx (i : Nat) : List α → List (Nat × α)
  | [] => []
  | a :: as => (i, a) :: enumFromIdx (i + 1) as

/-- Python `enumerate(order_items)`. -/
def pyEnum (l : List α) : List (Nat × α) :=
  enumFromIdx 0 l

/-- Body of the output loop of `convert_orders`: the order-level totals
(`Tax 1 Value`, `Shipping Line Price`, `Total`) are added only when
`idx == 0`. -/
def outputRowOf (row : SourceRow) (p : Nat × Item) : OutputRow :=
  { lineitemName := p.2.name
    lineitemQuantity := p.2.quantity
    lineitemPrice := p.2.price
    lineitemSku := p.2.sku
    tax1Value := if p.1 = 0 then some row.taxTotal else none
    shippingLinePrice := if p.1 = 0 then some row.shippingTotal else none
    total := if p.1 = 0 then some row.orderTotal else none }

/-- The per-row part of `OrderMigrationTool.convert_orders`: all slots are
expanded into items, and each item becomes one Shopify output row. -/
def convert_row (mapping : List (String × MetaRule)) (row : SourceRow) : List OutputRow :=
  (pyEnum (orderItems mapping row)).map (outputRowOf row)

/-! ## `categories/categories.py`: unique collection handles -/

/-- The character class `[a-z0-9]` of the handle sanitizer. -/
def isLowerAlnum (c : Char) : Bool :=
  (97 ≤ c.toNat && c.toNat ≤ 122) || (48 ≤ c.toNat && c.toNat ≤ 57)

/-- `re.sub(r'[^a-z0-9]+', '-', s)`: each maximal run of characters
outside `[a-z0-9]` becomes a single dash.  The boolean records whether the
previous character was part of such a run. -/
def dashRunsAux : List Char → Bool → List Char
  | [], _ => []
  | c :: rest, prevBad =>
    if isLowerAlnum c then c :: dashRunsAux rest false
    else if prevBad then dashRunsAux rest true
    else '-' :: dashRunsAux rest true

/-- Python `str.strip('-')`. -/
def stripDashes (l : List Char) : List Char :=
  ((l.dropWhile (fun c => c = '-')).reverse.dropWhile (fun c => c = '-')).reverse

/-- The `base_handle` of `create_unique_handle`:
`re.sub(r'[^a-z0-9]+', '-', title.lower()).strip('-')`. -/
def base_handle_of (title : String) : String :=
  String.mk (stripDashes (dashRunsAux (title.data.map Char.toLower) false))

/-- The collision candidate
`f"{base_handle}-{hashlib.md5(f"{base_handle}{counter}".encode()).hexdigest()[:4]}"`,
with the external `hashlib` digest abstracted as `md5hex`. -/
def candidateHandle (md5hex : String → String) (base : String) (counter : Nat) : String :=
  base ++ "-" ++ String.mk ((md5hex (base ++ toString counter)).data.take 4)

/-- The `while handle in self.processed_handles` loop of
`create_unique_handle`.  The source loop has no bound; the embedding takes
explicit fuel and returns `none` on exhaustion (the loop body never
removes handles, so any fuel larger than the number of distinct candidates
tried is enough in the runs the claims describe). -/
def cuhLoop (md5hex : String → String) (base : String) (processed : List String) :
    Nat → String → Nat → Option String
  | 0, _, _ => none
  | fuel + 1, handle, counter =>
    if handle ∈ processed then
      cuhLoop md5hex base processed fuel (candidateHandle md5hex base counter) (counter + 1)
    else some handle

/-- `CollectionMigrationTool.create_unique_handle`: returns the issued
handle and the grown `processed_handles` state. -/
def create_unique_handle (md5hex : String → String) (processed : List String)
    (title : String) (fuel : Nat) : Option (String × List String) :=
  match cuhLoop md5hex (base_handle_of title) processed fuel (base_handle_of title) 1 with
  | some h => some (h, processed ++ [h])
  | none => none

/-! ## `promocodes/promocode.py`: discount code cleaning -/

/-- The character class `[A-Z0-9_-]` kept by `clean_discount_code`. -/
def isCodeChar (c : Char) : Bool :=
  (65 ≤ c.toNat && c.toNat ≤ 90) || (48 ≤ c.toNat && c.toNat ≤ 57) || c = '_' || c = '-'

/-- `DiscountMigrationTool.clean_discount_code` (the pure string
transform, from `src/promocodes/promocode.py`): uppercase, strip
characters outside `[A-Z0-9_-]`, truncate to 50. -/
def clean_discount_code (code : String) : String :=
  if code = "" then ""
  else
    let c := String.mk ((code.data.map Char.toUpper).filter isCodeChar)
    if 50 < c.data.length then String.mk (c.data.take 50) else c

/-- Modelled from the spec: the `DiscountMigrationTool` version exercised
by `src/tests/test_discounts.py` (its implementation is not under `src/`,
only its tests are) keeps a `codes_truncated` statistics counter, and per
the spec the code text is "truncated at a configurable max length
(default 50) with a truncation counter bump".  The string transform is the
one of `src/promocodes/promocode.py`; the counter is threaded
explicitly. -/
def clean_discount_code_counting (codesTruncated : Nat) (code : String) : Nat × String :=
  if code = "" then (codesTruncated, "")
  else
    let c := String.mk ((code.data.map Char.toUpper).filter isCodeChar)
    if 50 < c.data.length then (codesTruncated + 1, String.mk (c.data.take 50))
    else (codesTruncated, c)

/-! ## `base/base_migration.py`: the conversion driver -/

/-- The driver's statistics counters (the fields the claims touch). -/
structure DriverStats where
  totalItems : Nat
  successful : Nat
  failed : Nat
  warnings : Nat
deriving DecidableEq, Repr

/-- Outcome of one `convert_item` call as the driver observes it: an
exception, a falsy result (`None` — and an empty list is equally falsy in
the `if converted:` test), a single dict, or a non-empty list. -/
inductive ConvResult (R : Type) where
  | raises
  | retNone
  | retOne (r : R)
  | retList (rs : List R)

/-- Body of the per-row loop of `BaseMigrationTool.convert_data`: invalid
rows bump `warnings`; an exception bumps `failed`; a truthy conversion
result is appended (or extended) and bumps `successful`. -/
def driverStep (validate : ρ → Bool) (convert : ρ → ConvResult R)
    (st : DriverStats × List R) (row : ρ) : DriverStats × List R :=
  let (stats, buf) := st
  if validate row = false then
    ({ stats with warnings := stats.warnings + 1 }, buf)
  else
    match convert row with
    | .raises => ({ stats with failed := stats.failed + 1 }, buf)
    | .retNone => (stats, buf)
    | .retOne r => ({ stats with successful := stats.successful + 1 }, buf ++ [r])
    | .retList rs =>
      if rs.isEmpty then (stats, buf)
      else ({ stats with successful := stats.successful + 1 }, buf ++ rs)

/-- The observable outcome of one `convert_data` run: the statistics, the
`success_rate` of the report (`successful / max(total, 1) * 100`), whether
an output file was written, and whether the empty-output warning was
logged instead. -/
structure RunReport where
  stats : DriverStats
  successRate : ℚ
  wroteOutput : Bool
  warnedNoOutput : Bool
deriving DecidableEq, Repr

/-- `BaseMigrationTool.convert_data` over an already-read list of rows:
run the per-row loop, write the output only when the buffer is non-empty
(warning otherwise), and always generate the report. -/
def convert_data (validate : ρ → Bool) (convert : ρ → ConvResult R)
    (rows : List ρ) : RunReport :=
  let init : DriverStats × List R :=
    ({ totalItems := rows.length, successful := 0, failed := 0, warnings := 0 }, [])
  let res := rows.foldl (driverStep validate convert) init
  { stats := res.1
    successRate := (res.1.successful : ℚ) / (max res.1.totalItems 1 : ℚ) * 100
    wroteOutput := ¬ res.2.isEmpty
    warnedNoOutput := res.2.isEmpty }

/-! ## Helper lemmas -/

theorem foldl_congr_mem {α β : Type} {l : List α} {f g : β → α → β}
    (h : ∀ a ∈ l, ∀ b, f b a = g b a) (b : β) :
    l.foldl f b = l.foldl g b := by
  induction l generalizing b with
  | nil => rfl
  | cons x xs ih =>
    simp only [List.foldl_cons]
    rw [h x (by simp)]
    exact ih (fun a ha b => h a (by simp [ha]) b) _

theorem filterMap_congr_mem {α β : Type} {l : List α} {f g : α → Option β}
    (h : ∀ a ∈ l, f a = g a) :
    l.filterMap f = l.filterMap g := by
  induction l with
  | nil => rfl
  | cons x xs ih =>
    simp only [List.filterMap_cons, h x (by simp)]
    rw [ih (fun a ha => h a (by simp [ha]))]

theorem enumFromIdx_fst_le {α : Type} {n : Nat} {l : List α} {p : Nat × α}
    (h : p ∈ enumFromIdx n l) : n ≤ p.1 := by
  induction l generalizing n with
  | nil => cases h
  | cons x xs ih =>
    simp only [enumFromIdx, List.mem_cons] at h
    rcases h with h | h
    · subst h; exact Nat.le_refl n
    · exact Nat.le_of_succ_le (ih h)

theorem enumFromIdx_map_snd {α β : Type} (f : α → β) (n : Nat) (l : List α) :
    (enumFromIdx n l).map (fun p => f p.2) = l.map f := by
  induction l generalizing n with
  | nil => rfl
  | cons x xs ih => simp only [enumFromIdx, List.map_cons, ih]

theorem sum_map_eq_zero {α : Type} {l : List α} {f : α → ℚ}
    (h : ∀ x ∈ l, f x = 0) : (l.map f).sum = 0 := by
  induction l with
  | nil => rfl
  | cons x xs ih =>
    simp only [List.map_cons, List.sum_cons, h x (by simp)]
    rw [ih (fun a ha => h a (by simp [ha]))]
    norm_num

theorem dictInsert_keys {α : Type} (m : List (String × α)) (k : String) (v : α) :
    (dictInsert m k v).map Prod.fst =
      if m.any (fun p => p.1 = k) then m.map Prod.fst else m.map Prod.fst ++ [k] := by
  unfold dictInsert
  by_cases h : m.any (fun p => p.1 = k)
  · simp only [h, if_true, List.map_map]
    refine List.map_congr_left (fun p _ => ?_)
    by_cases hp : p.1 = k
    · simp [Function.comp, hp]
    · simp [Function.comp, hp]
  · simp [h]

theorem dictInsert_keys_nodup {α : Type} {m : List (String × α)}
    (hm : (m.map Prod.fst).Nodup) (k : String) (v : α) :
    ((dictInsert m k v).map Prod.fst).Nodup := by
  rw [dictInsert_keys]
  by_cases h : m.any (fun p => p.1 = k)
  · simpa [h] using hm
  · have hk : k ∉ m.map Prod.fst := by
      intro hmem
      rcases List.mem_map.mp hmem with ⟨p, hp, hpk⟩
      exact h (List.any_eq_true.mpr ⟨p, hp, by simp [hpk]⟩)
    rw [if_neg h, List.nodup_append]
    refine ⟨hm, List.nodup_singleton k, ?_⟩
    intro a ha hak
    have hek : a = k := by simpa using hak
    exact absurd (hek ▸ ha) hk

theorem foldl_dictInsert_keys_nodup {α β : Type}
    (key : β → String) (val : β → α) (l : List β) :
    ∀ m : List (String × α), (m.map Prod.fst).Nodup →
      (((l.foldl (fun acc b => dictInsert acc (key b) (val b)) m).map Prod.fst)).Nodup := by
  induction l with
  | nil => intro m hm; exact hm
  | cons x xs ih =>
    intro m hm
    exact ih _ (dictInsert_keys_nodup hm (key x) (val x))

theorem metaValues_keys_nodup (s : String) : ((metaValues s).map Prod.fst).Nodup := by
  unfold metaValues
  exact foldl_dictInsert_keys_nodup (fun kv => String.mk kv.1)
    (fun kv => pyStrip (String.mk kv.2)) (metaPairs s) [] (by simp)

theorem alookup_cons {α : Type} (p : String × α) (ps : List (String × α)) (k : String) :
    alookup (p :: ps) k = if p.1 = k then some p.2 else alookup ps k := by
  by_cases hp : p.1 = k <;> simp [alookup, List.find?, hp]

theorem alookup_filter_of_pred {α : Type} {q : String → Bool} {k : String}
    (hq : q k = true) (m : List (String × α)) :
    alookup (m.filter (fun kr => q kr.1)) k = alookup m k := by
  induction m with
  | nil => rfl
  | cons p ps ih =>
    rw [List.filter_cons]
    by_cases hqp : q p.1 = true
    · rw [if_pos hqp, alookup_cons, alookup_cons]
      by_cases hp : p.1 = k
      · simp [hp]
      · simp [hp, ih]
    · have hp : ¬ p.1 = k := fun e => hqp (by rw [e]; exact hq)
      rw [if_neg hqp, alookup_cons, if_neg hp]
      exact ih

theorem alookup_filter_of_not_pred {α : Type} {q : String → Bool} {k : String}
    (hq : q k = false) (m : List (String × α)) :
    alookup (m.filter (fun kr => q kr.1)) k = none := by
  induction m with
  | nil => rfl
  | cons p ps ih =>
    rw [List.filter_cons]
    by_cases hqp : q p.1 = true
    · have hp : ¬ p.1 = k := by
        intro e
        rw [e, hq] at hqp
        exact Bool.noConfusion hqp
      rw [if_pos hqp, alookup_cons, if_neg hp]
      exact ih
    · rw [if_neg hqp]
      exact ih

/-! ## Claim theorems -/

/-- C1: for every source order row whose conversion emits at least one
output row, the order-level totals (`Tax 1 Value`, `Shipping Line Price`,
`Total`) appear only on the very first emitted row of that order; all
later rows carry no value in those columns, and summing the `Total`
column over all emitted rows yields exactly one copy of the order's
total. -/
theorem convert_orders_totals_only_first (mapping : List (String × MetaRule))
    (row : SourceRow) (r0 : OutputRow) (rest : List OutputRow)
    (h : convert_row mapping row = r0 :: rest) :
    r0.tax1Value = some row.taxTotal ∧
    r0.shippingLinePrice = some row.shippingTotal ∧
    r0.total = some row.orderTotal ∧
    (∀ r ∈ rest, r.tax1Value = none ∧ r.shippingLinePrice = none ∧ r.total = none) ∧
    ((convert_row mapping row).map (fun r => r.total.getD 0)).sum = row.orderTotal := by
  rcases hitems : orderItems mapping row with _ | ⟨a, as⟩
  · rw [convert_row, hitems] at h
    exact absurd h (by simp [pyEnum, enumFromIdx])
  · rw [convert_row, hitems] at h
    simp only [pyEnum, enumFromIdx, List.map_cons] at h
    injection h with h0 hrest
    refine ⟨?_, ?_, ?_, ?_, ?_⟩
    · rw [← h0]; simp [outputRowOf]
    · rw [← h0]; simp [outputRowOf]
    · rw [← h0]; simp [outputRowOf]
    · intro r hr
      rw [← hrest] at hr
      obtain ⟨p, hp, rfl⟩ := List.mem_map.mp hr
      have h1 : 1 ≤ p.1 := enumFromIdx_fst_le hp
      have hne : ¬ p.1 = 0 := by omega
      simp [outputRowOf, hne]
    · rw [convert_row, hitems]
      simp only [pyEnum, enumFromIdx, List.map_cons, List.sum_cons, List.map_map]
      have hz : ((enumFromIdx 1 as).map
          ((fun r : OutputRow => r.total.getD 0) ∘ outputRowOf row)).sum = 0 := by
        refine sum_map_eq_zero (fun p hp => ?_)
        have h1 : 1 ≤ p.1 := enumFromIdx_fst_le hp
        have hne : ¬ p.1 = 0 := by omega
        simp [outputRowOf, hne]
      rw [hz]
      simp [outputRowOf]

/-- C1 witness: a concrete order row producing two output rows (a main
item and one promoted meta item), evaluated end to end. -/
theorem convert_orders_totals_only_first_witness :
    let mapping : List (String × MetaRule) :=
      [("addon", ⟨"", "Wrap Service", "wrap-", "wrap_price"⟩)]
    let row : SourceRow :=
      { cells := fun k =>
          if k = "line_item_1" then some "name:X|quantity:2|total:10|meta:addon:Gift Wrap"
          else none
        taxTotal := 1, shippingTotal := 2, orderTotal := 13 }
    ∀ r0 rest, convert_row mapping row = r0 :: rest →
      r0.total = some 13 ∧
      ((convert_row mapping row).map (fun r => r.total.getD 0)).sum = 13 := by
  intro mapping row r0 rest h
  have hmain := convert_orders_totals_only_first mapping row r0 rest h
  exact ⟨hmain.2.2.1, hmain.2.2.2.2⟩

/-- C4: a line-item slot in which `name`, `quantity` and `total` are not
all present and well-formed contributes nothing: converting a row with
such a slot in any cell equals converting the row with that cell absent
(no output row for the slot, no exception, remaining slots processed
unchanged). -/
theorem malformed_slot_skipped (mapping : List (String × MetaRule)) (row : SourceRow)
    (i : Nat) (s : String) (hmal : parseSlot s = none) :
    convert_row mapping (setCell row ("line_item_" ++ toString i) (some s)) =
    convert_row mapping (setCell row ("line_item_" ++ toString i) none) := by
  have hitems :
      orderItems mapping (setCell row ("line_item_" ++ toString i) (some s)) =
      orderItems mapping (setCell row ("line_item_" ++ toString i) none) := by
    unfold orderItems
    refine foldl_congr_mem (fun j _ b => ?_) []
    unfold slotStep setCell
    by_cases hk : ("line_item_" ++ toString j) = ("line_item_" ++ toString i)
    · simp [hk, hmal]
    · simp only [if_neg hk]
  unfold convert_row
  rw [hitems]
  exact List.map_congr_left (fun p _ => by simp [outputRowOf, setCell])

/-- C4 witness: a malformed slot (missing `total`) in `line_item_1` next
to a well-formed `line_item_2`, evaluated concretely. -/
theorem malformed_slot_skipped_witness :
    parseSlot "name:Broken|quantity:2" = none ∧
    convert_row []
      (setCell
        { cells := fun k => if k = "line_item_2" then some "name:A|quantity:1|total:2" else none
          taxTotal := 0, shippingTotal := 0, orderTotal := 2 }
        ("line_item_" ++ toString 1) (some "name:Broken|quantity:2")) =
    convert_row []
      (setCell
        { cells := fun k => if k = "line_item_2" then some "name:A|quantity:1|total:2" else none
          taxTotal := 0, shippingTotal := 0, orderTotal := 2 }
        ("line_item_" ++ toString 1) none) := by
  refine ⟨by decide, malformed_slot_skipped _ _ 1 _ (by decide)⟩

/-- C5: the main item's price is `total / quantity` for a positive
quantity and `0` for a zero quantity; a `quantity:0` slot is the
zero-price policy, not a division error (the embedding is a total
function). -/
theorem unit_price_division_safe (s : String) (info : SlotInfo)
    (h : parseSlot s = some info) :
    (0 < info.quantity → (mainItem info).price = info.total / (info.quantity : ℚ)) ∧
    (info.quantity = 0 → (mainItem info).price = 0) := by
  constructor
  · intro hq; simp [mainItem, hq]
  · intro hq; simp [mainItem, hq]

/-- C5 witness: a concrete `quantity:0` slot parses and yields price 0. -/
theorem unit_price_division_safe_witness :
    parseSlot "name:X|quantity:0|total:5" = some ⟨"X", 0, 5, ""⟩ ∧
    (mainItem ⟨"X", 0, 5, ""⟩).price = 0 := by
  refine ⟨by decide, ?_⟩
  exact (unit_price_division_safe "name:X|quantity:0|total:5" ⟨"X", 0, 5, ""⟩ (by decide)).2 rfl

/-- C9: the conversion of one source row reads only the cells named
`line_item_1` through `line_item_19` (plus the order totals): two rows
agreeing there convert identically, whatever a `line_item_20` or
higher-numbered cell contains. -/
theorem only_line_items_1_to_19_read (mapping : List (String × MetaRule))
    (r1 r2 : SourceRow)
    (hcells : ∀ i ∈ List.range' 1 19,
      r1.cells ("line_item_" ++ toString i) = r2.cells ("line_item_" ++ toString i))
    (htax : r1.taxTotal = r2.taxTotal)
    (hship : r1.shippingTotal = r2.shippingTotal)
    (htot : r1.orderTotal = r2.orderTotal) :
    convert_row mapping r1 = convert_row mapping r2 := by
  have hitems : orderItems mapping r1 = orderItems mapping r2 := by
    unfold orderItems
    exact foldl_congr_mem (fun i hi b => by unfold slotStep; rw [hcells i hi]) []
  unfold convert_row
  rw [hitems]
  exact List.map_congr_left (fun p _ => by simp [outputRowOf, htax, hship, htot])

/-- C2: a mapped, non-variant meta key `k` with value `v` in the slot's
`meta_values` yields exactly one derived line item: name
`"{v} {name_suffix}"` (for a rule with a suffix and no prefix), sku
`sku_prefix ++ slug(v)`, quantity 1, and the add-on table's price for `k`
defaulting to 0. -/
theorem parse_meta_info_promotes_mapped_key
    (mapping : List (String × MetaRule)) (s : String) (k v : String) (rule : MetaRule)
    (hmem : (k, v) ∈ metaValues s)
    (hrule : alookup mapping k = some rule)
    (hpa : strStartsWith "pa_" k = false)
    (hsuf : ¬ rule.nameSuf = "") (hpre : rule.namePre = "") :
    ((metaValues s).map Prod.fst).count k = 1 ∧
    metaItemFor mapping (paoPrices s) (k, v) = some
      { name := v ++ " " ++ rule.nameSuf
        quantity := 1
        price := (alookup (paoPrices s) k).getD 0
        sku := rule.skuPre ++ slugify v
        requiresShipping := true
        taxable := true } ∧
    ({ name := v ++ " " ++ rule.nameSuf
       quantity := 1
       price := (alookup (paoPrices s) k).getD 0
       sku := rule.skuPre ++ slugify v
       requiresShipping := true
       taxable := true } : Item) ∈ parse_meta_info mapping s := by
  have hfmt : format_meta_name mapping k v = v ++ " " ++ rule.nameSuf := by
    unfold format_meta_name
    rw [hrule]
    exact if_pos ⟨hsuf, hpre⟩
  have hitem : metaItemFor mapping (paoPrices s) (k, v) = some
      { name := v ++ " " ++ rule.nameSuf
        quantity := 1
        price := (alookup (paoPrices s) k).getD 0
        sku := rule.skuPre ++ slugify v
        requiresShipping := true
        taxable := true } := by
    unfold metaItemFor
    rw [hrule]
    simp [hpa, hfmt]
  have hs : ¬ s = "" := by
    intro he
    have hempty : metaValues "" = [] := rfl
    rw [he, hempty] at hmem
    exact absurd hmem (List.not_mem_nil _)
  refine ⟨?_, hitem, ?_⟩
  · exact List.count_eq_one_of_mem (metaValues_keys_nodup s)
      (List.mem_map_of_mem Prod.fst hmem)
  · unfold parse_meta_info
    rw [if_neg hs]
    exact List.mem_filterMap.mpr ⟨(k, v), hmem, hitem⟩

/-- C2 witness: a concrete slot with a mapped `addon` meta key, evaluated
end to end. -/
theorem parse_meta_info_promotes_mapped_key_witness :
    ((metaValues "name:X|quantity:1|total:5|meta:addon:Gift Wrap").map Prod.fst).count
      "addon" = 1 ∧
    ({ name := "Gift Wrap" ++ " " ++ "Wrap Service"
       quantity := 1
       price := (alookup (paoPrices "name:X|quantity:1|total:5|meta:addon:Gift Wrap")
         "addon").getD 0
       sku := "wrap-" ++ slugify "Gift Wrap"
       requiresShipping := true
       taxable := true } : Item) ∈
      parse_meta_info [("addon", ⟨"", "Wrap Service", "wrap-", "wrap_price"⟩)]
        "name:X|quantity:1|total:5|meta:addon:Gift Wrap" := by
  have hmain := parse_meta_info_promotes_mapped_key
    [("addon", ⟨"", "Wrap Service", "wrap-", "wrap_price"⟩)]
    "name:X|quantity:1|total:5|meta:addon:Gift Wrap"
    "addon" "Gift Wrap" ⟨"", "Wrap Service", "wrap-", "wrap_price"⟩
    (by decide) (by decide) (by decide) (by decide) rfl
  exact ⟨hmain.1, hmain.2.2⟩

/-- C3 counterexample: the released order converter simply skips a
`pa_`-prefixed mapped key; it does not append any `"Label: Value"`
fragment, and the emitted main item's displayed name stays `"Widget"`
rather than becoming `"Widget (Color: Red)"` as the claim states. -/
theorem variant_attribute_not_decorated_cex :
    metaValues "name:Widget|quantity:2|total:10|meta:pa_color:Red" = [("pa_color", "Red")] ∧
    parse_meta_info [("pa_color", ⟨"", "Color", "color-", "color_price"⟩)]
      "name:Widget|quantity:2|total:10|meta:pa_color:Red" = [] ∧
    (convert_row [("pa_color", ⟨"", "Color", "color-", "color_price"⟩)]
      { cells := fun k =>
          if k = "line_item_1" then some "name:Widget|quantity:2|total:10|meta:pa_color:Red"
          else none
        taxTotal := 0, shippingTotal := 0, orderTotal := 10 }).map
      (fun r => r.lineitemName) = ["Widget"] := by
  refine ⟨by decide, by decide, by decide⟩

/-- C3 amended: a `pa_`-prefixed meta key never yields a derived line
item — the `pa_` entries of the mapping are completely inert (filtering
them out changes nothing) — and the emitted rows' displayed names are
exactly the items' names, with no variant-description decoration
anywhere. -/
theorem variant_attribute_emits_nothing (mapping : List (String × MetaRule))
    (s : String) (row : SourceRow) :
    parse_meta_info mapping s =
      parse_meta_info (mapping.filter (fun kr => ! strStartsWith "pa_" kr.1)) s ∧
    (convert_row mapping row).map (fun r => r.lineitemName) =
      (orderItems mapping row).map Item.name := by
  constructor
  · unfold parse_meta_info
    by_cases hs : s = ""
    · simp [hs]
    · rw [if_neg hs, if_neg hs]
      refine filterMap_congr_mem (fun kv _ => ?_)
      unfold metaItemFor
      by_cases hpa : strStartsWith "pa_" kv.1 = true
      · have hnone :
            alookup (mapping.filter fun kr => ! strStartsWith "pa_" kr.1) kv.1 = none :=
          alookup_filter_of_not_pred
            (q := fun key => ! strStartsWith "pa_" key) (by simp [hpa]) mapping
        rw [hnone]
        cases halk : alookup mapping kv.1 with
        | none => rfl
        | some rule => simp [hpa]
      · have heq :
            alookup (mapping.filter fun kr => ! strStartsWith "pa_" kr.1) kv.1 =
              alookup mapping kv.1 :=
          alookup_filter_of_pred
            (q := fun key => ! strStartsWith "pa_" key) (by simp [hpa]) mapping
        rw [heq]
        cases halk : alookup mapping kv.1 with
        | none => rfl
        | some rule =>
          have hfmt :
              format_meta_name (mapping.filter fun kr => ! strStartsWith "pa_" kr.1)
                kv.1 kv.2 = format_meta_name mapping kv.1 kv.2 := by
            unfold format_meta_name
            rw [heq]
          simp [hpa, hfmt]
  · unfold convert_row pyEnum
    rw [List.map_map]
    exact enumFromIdx_map_snd Item.name 0 (orderItems mapping row)

/-- C9 witness: two concrete rows differing only in a `line_item_20` cell
convert to the same output. -/
theorem only_line_items_1_to_19_read_witness :
    convert_row []
      { cells := fun k =>
          if k = "line_item_20" then some "name:Smuggled|quantity:9|total:99"
          else if k = "line_item_1" then some "name:A|quantity:1|total:2" else none
        taxTotal := 0, shippingTotal := 0, orderTotal := 2 } =
    convert_row []
      { cells := fun k => if k = "line_item_1" then some "name:A|quantity:1|total:2" else none
        taxTotal := 0, shippingTotal := 0, orderTotal := 2 } := by
  exact only_line_items_1_to_19_read _ _ _ (by decide) rfl rfl rfl

/-- Hex digits as produced by a lowercase hex digest. -/
def isHexChar (c : Char) : Bool :=
  (48 ≤ c.toNat && c.toNat ≤ 57) || (97 ≤ c.toNat && c.toNat ≤ 102)

/-- A stand-in digest function used to instantiate the abstract `md5hex`
parameter on concrete runs. -/
def md5dummy : String → String := fun _ => "0123456789abcdef0123456789abcdef"

theorem strData_append (a b : String) : (a ++ b).data = a.data ++ b.data := rfl

theorem candidateHandle_ne_empty (md5hex : String → String) (base : String) (c : Nat) :
    ¬ candidateHandle md5hex base c = "" := by
  intro he
  have hd : (candidateHandle md5hex base c).data = [] := by rw [he]
  rw [candidateHandle, strData_append, strData_append] at hd
  rcases List.append_eq_nil.mp hd with ⟨hd1, hd2⟩
  rcases List.append_eq_nil.mp hd1 with ⟨_, hdash⟩
  exact List.cons_ne_nil _ _ hdash

theorem all_take {α : Type} {p : α → Bool} {l : List α}
    (h : l.all p = true) (n : Nat) : (l.take n).all p = true := by
  rw [List.all_eq_true] at h ⊢
  exact fun x hx => h x (List.take_subset n l hx)

/-- Invariant of the collision loop of `create_unique_handle`: a returned
handle is not in the processed set, and is either the base handle or a
hash-suffixed candidate for some collision count `c ≥ 1`. -/
theorem cuhLoop_mem_and_shape (md5hex : String → String) (base : String)
    (processed : List String) :
    ∀ fuel handle counter h, 1 ≤ counter →
      (handle = base ∨ ∃ c, 1 ≤ c ∧ handle = candidateHandle md5hex base c) →
      cuhLoop md5hex base processed fuel handle counter = some h →
      h ∉ processed ∧ (h = base ∨ ∃ c, 1 ≤ c ∧ h = candidateHandle md5hex base c) := by
  intro fuel
  induction fuel with
  | zero =>
    intro handle counter h _ _ heq
    exact absurd heq (by simp [cuhLoop])
  | succ n ih =>
    intro handle counter h hc hshape heq
    unfold cuhLoop at heq
    by_cases hmem : handle ∈ processed
    · rw [if_pos hmem] at heq
      exact ih _ _ _ (by omega) (Or.inr ⟨counter, hc, rfl⟩) heq
    · rw [if_neg hmem] at heq
      injection heq with heq'
      subst heq'
      exact ⟨hmem, hshape⟩

/-- C6 counterexample: the title `"!"` is non-empty, but its normalized
base handle is empty and `create_unique_handle` returns the empty handle
on a fresh run, contradicting the claim that every non-empty title yields
a non-empty handle. -/
theorem create_unique_handle_empty_handle_cex :
    create_unique_handle md5dummy [] "!" 1 = some ("", [""]) ∧ ¬ ("!" = "") := by
  exact ⟨by decide, by decide⟩

/-- C6 amended: every handle issued by `create_unique_handle` is distinct
from all previously issued handles (and is recorded); it is non-empty
whenever the title's normalized base handle is non-empty; and on a
collision of the base handle the result is the base handle plus `"-"`
plus a 4-hex-character prefix of the digest of the base handle and the
collision count. -/
theorem create_unique_handle_unique (md5hex : String → String)
    (hdig : ∀ t, (md5hex t).data.length = 32 ∧ (md5hex t).data.all isHexChar)
    (processed : List String) (title : String) (fuel : Nat)
    (h : String) (processed' : List String)
    (heq : create_unique_handle md5hex processed title fuel = some (h, processed')) :
    h ∉ processed ∧ processed' = processed ++ [h] ∧
    (¬ base_handle_of title = "" → ¬ h = "") ∧
    (base_handle_of title ∈ processed → ∃ c, 1 ≤ c ∧
      h = base_handle_of title ++ "-" ++
        String.mk ((md5hex (base_handle_of title ++ toString c)).data.take 4) ∧
      ((md5hex (base_handle_of title ++ toString c)).data.take 4).length = 4 ∧
      ((md5hex (base_handle_of title ++ toString c)).data.take 4).all isHexChar) := by
  unfold create_unique_handle at heq
  cases hloop : cuhLoop md5hex (base_handle_of title) processed fuel
      (base_handle_of title) 1 with
  | none =>
    rw [hloop] at heq
    exact absurd heq (by simp)
  | some g =>
    rw [hloop] at heq
    injection heq with heq'
    rw [Prod.mk.injEq] at heq'
    obtain ⟨hg, hp⟩ := heq'
    subst hg
    have hspec := cuhLoop_mem_and_shape md5hex (base_handle_of title) processed fuel
      (base_handle_of title) 1 g (Nat.le_refl 1) (Or.inl rfl) hloop
    refine ⟨hspec.1, hp.symm, ?_, ?_⟩
    · intro hbase hhe
      rcases hspec.2 with hb | ⟨c, _, hcand⟩
      · exact hbase (hhe ▸ hb.symm)
      · exact candidateHandle_ne_empty md5hex _ c (hcand ▸ hhe)
    · intro hbmem
      rcases hspec.2 with hb | ⟨c, hc1, hcand⟩
      · exact absurd (hb ▸ hbmem) hspec.1
      · refine ⟨c, hc1, hcand, ?_, all_take ((hdig _).2) 4⟩
        rw [List.length_take, (hdig _).1]
        decide

/-- C6 witness: two categories both named `"Electronics"` in one run: the
second handle is the first plus a 4-hex suffix, distinct from the
first. -/
theorem create_unique_handle_unique_witness :
    "electronics-0123" ∉ ["electronics"] ∧
    (["electronics", "electronics-0123"] : List String) = ["electronics"] ++ ["electronics-0123"] ∧
    (¬ base_handle_of "Electronics" = "" → ¬ "electronics-0123" = "") ∧
    (base_handle_of "Electronics" ∈ ["electronics"] → ∃ c, 1 ≤ c ∧
      "electronics-0123" = base_handle_of "Electronics" ++ "-" ++
        String.mk ((md5dummy (base_handle_of "Electronics" ++ toString c)).data.take 4) ∧
      ((md5dummy (base_handle_of "Electronics" ++ toString c)).data.take 4).length = 4 ∧
      ((md5dummy (base_handle_of "Electronics" ++ toString c)).data.take 4).all isHexChar) := by
  have hdummy : ("0123456789abcdef0123456789abcdef" : String).data.length = 32 ∧
      ("0123456789abcdef0123456789abcdef" : String).data.all isHexChar = true := by decide
  exact create_unique_handle_unique md5dummy (fun _ => hdummy)
    ["electronics"] "Electronics" 2 "electronics-0123"
    ["electronics", "electronics-0123"] (by decide)

/-- C7: `clean_discount_code` uppercases its input, removes every
character outside `[A-Z0-9_-]` and truncates to at most 50 characters;
the tested tool version additionally bumps its `codes_truncated` counter
exactly when truncation happens.  Includes the spec's concrete round
trips: `"summer@20!" ↦ "SUMMER20"`, and a 60-character alphanumeric input
truncated to exactly 50 with one counter bump. -/
theorem clean_discount_code_spec :
    (∀ n code, (clean_discount_code_counting n code).2 = clean_discount_code code) ∧
    (∀ code, clean_discount_code code =
      String.mk (((code.data.map Char.toUpper).filter isCodeChar).take 50)) ∧
    (∀ code, (clean_discount_code code).data.length ≤ 50) ∧
    (∀ n code, (clean_discount_code_counting n code).1 =
      if 50 < ((code.data.map Char.toUpper).filter isCodeChar).length then n + 1 else n) ∧
    clean_discount_code "summer@20!" = "SUMMER20" ∧
    (clean_discount_code_counting 0 (String.mk (List.replicate 60 'A'))).2.data.length = 50 ∧
    (clean_discount_code_counting 0 (String.mk (List.replicate 60 'A'))).1 = 1 := by
  have hchar : ∀ code, clean_discount_code code =
      String.mk (((code.data.map Char.toUpper).filter isCodeChar).take 50) := by
    intro code
    unfold clean_discount_code
    by_cases hc : code = ""
    · subst hc; rfl
    · rw [if_neg hc]
      by_cases hlen : 50 < ((code.data.map Char.toUpper).filter isCodeChar).length
      · simp only [hlen, if_pos]
      · rw [if_neg hlen]
        rw [List.take_of_length_le (by omega)]
  refine ⟨?_, hchar, ?_, ?_, by decide, by decide, by decide⟩
  · intro n code
    unfold clean_discount_code_counting clean_discount_code
    by_cases hc : code = ""
    · subst hc; rfl
    · rw [if_neg hc, if_neg hc]
      by_cases hlen : 50 < ((code.data.map Char.toUpper).filter isCodeChar).length
      · simp only [hlen, if_pos]
      · rw [if_neg hlen, if_neg hlen]
  · intro code
    rw [hchar code, List.length_take]
    omega
  · intro n code
    unfold clean_discount_code_counting
    by_cases hc : code = ""
    · subst hc
      simp
    · rw [if_neg hc]
      by_cases hlen : 50 < ((code.data.map Char.toUpper).filter isCodeChar).length
      · rw [if_pos hlen, if_pos hlen]
      · rw [if_neg hlen, if_neg hlen]

/-- C8: a run whose per-row loop leaves the output buffer empty still
produces its report; the report's `success_rate` is
`successful / max(total, 1) * 100` with a positive denominator, the
output file is not written, and the empty-output warning is logged. -/
theorem convert_data_zero_rows_report {ρ R : Type} (validate : ρ → Bool)
    (convert : ρ → ConvResult R) (rows : List ρ)
    (hempty : (rows.foldl (driverStep validate convert)
        (({ totalItems := rows.length, successful := 0, failed := 0, warnings := 0 },
          []) : DriverStats × List R)).2 = []) :
    (convert_data validate convert rows).wroteOutput = false ∧
    (convert_data validate convert rows).warnedNoOutput = true ∧
    (convert_data validate convert rows).successRate =
      ((convert_data validate convert rows).stats.successful : ℚ) /
        (max (convert_data validate convert rows).stats.totalItems 1 : ℚ) * 100 ∧
    (1 : ℚ) ≤ (max (convert_data validate convert rows).stats.totalItems 1 : ℚ) := by
  refine ⟨?_, ?_, rfl, ?_⟩
  · show (¬ (rows.foldl (driverStep validate convert) _).2.isEmpty : Bool) = false
    rw [hempty]
    rfl
  · show ((rows.foldl (driverStep validate convert) _).2.isEmpty : Bool) = true
    rw [hempty]
    rfl
  · exact_mod_cast Nat.le_max_right (convert_data validate convert rows).stats.totalItems 1

/-- C8 witness: a one-row run whose only conversion raises produces the
report with no output written. -/
theorem convert_data_zero_rows_report_witness :
    (convert_data (fun (_ : Nat) => true) (fun _ => ConvResult.raises (R := Nat))
      [0]).wroteOutput = false ∧
    (convert_data (fun (_ : Nat) => true) (fun _ => ConvResult.raises (R := Nat))
      [0]).warnedNoOutput = true := by
  have hmain := convert_data_zero_rows_report (fun (_ : Nat) => true)
    (fun _ => ConvResult.raises (R := Nat)) [0] (by decide)
  exact ⟨hmain.1, hmain.2.1⟩

/-- Concrete `_pao_ids` payloads exercising the raw-price grammar. -/
def paoFractional : String :=
  "s:3:\"key\";s:5:\"addon\";s:5:\"value\";s:4:\"Gold\";s:9:\"raw_price\";d:12.5;"

/-- A payload whose raw price carries a sign. -/
def paoSigned : String :=
  "s:3:\"key\";s:5:\"addon\";s:5:\"value\";s:4:\"Gold\";s:9:\"raw_price\";d:-5;"

/-- Two serialized triples: the first (`addon`) with a signed raw price,
the second (`other`) with the well-formed raw price `d:7`; the lazy gap
of the triple pattern runs past the signed price and pairs the first key
with the second triple's price. -/
def paoTwoTriples : String :=
  paoSigned ++ "s:3:\"key\";s:5:\"other\";s:5:\"value\";s:3:\"Red\";s:9:\"raw_price\";d:7;"

/-- Meta mapping with a promotable `addon` rule. -/
def addonMapping : List (String × MetaRule) :=
  [("addon", ⟨"", "Add-on", "addon-", "addon_price"⟩)]

/-- A slot whose `_pao_ids` payload has a fractional raw price. -/
def fracSlot : String :=
  "name:X|quantity:1|total:40|meta:addon:Gold|meta:_pao_ids:" ++ paoFractional

/-- A slot whose `_pao_ids` payload has a single signed raw price. -/
def signedSlot : String :=
  "name:X|quantity:1|total:40|meta:addon:Gold|meta:_pao_ids:" ++ paoSigned

/-- A slot whose `_pao_ids` payload is the two-triple payload. -/
def twoTripleSlot : String :=
  "name:X|quantity:1|total:40|meta:addon:Gold|meta:_pao_ids:" ++ paoTwoTriples

theorem bind_some_elim {α β : Type} {x : Option α} {f : α → Option β} {b : β}
    (h : x.bind f = some b) : ∃ a, x = some a ∧ f a = some b := by
  cases hx : x with
  | none => rw [hx] at h; exact absurd h (by simp)
  | some a => rw [hx] at h; exact ⟨a, rfl, h⟩

theorem group1P_spec {p : Char → Bool} {s run rest : List Char}
    (h : group1P p s = some (run, rest)) : ¬ run = [] ∧ run.all p := by
  unfold group1P at h
  by_cases he : (s.takeWhile p).isEmpty
  · rw [if_pos he] at h
    exact absurd h (by simp)
  · rw [if_neg he] at h
    injection h with h'
    rw [Prod.mk.injEq] at h'
    obtain ⟨h1, _⟩ := h'
    refine ⟨?_, ?_⟩
    · intro hnil
      rw [← h1] at hnil
      exact he (by rw [hnil]; rfl)
    · rw [← h1, List.all_eq_true]
      exact fun x hx => List.mem_takeWhile_imp hx

theorem lazyRawPrice_succ (n : Nat) (s : List Char) :
    lazyRawPrice (n + 1) s =
      match (matchLit "s:9:\"raw_price\";d:".data s).bind (group1P Char.isDigit) with
      | some r => some r
      | none =>
        match s with
        | [] => none
        | c :: rest => if c = '\n' then none else lazyRawPrice n rest := rfl

/-- Any digit group returned by the lazy raw-price scanner is a nonempty
digit run. -/
theorem lazyRawPrice_spec :
    ∀ (fuel : Nat) (s ds rest : List Char), lazyRawPrice fuel s = some (ds, rest) →
      ¬ ds = [] ∧ ds.all Char.isDigit := by
  intro fuel
  induction fuel with
  | zero =>
    intro s ds rest h
    exact absurd h (by simp [lazyRawPrice])
  | succ n ih =>
    intro s ds rest h
    rw [lazyRawPrice_succ] at h
    cases hm : (matchLit "s:9:\"raw_price\";d:".data s).bind (group1P Char.isDigit) with
    | some r =>
      rw [hm] at h
      injection h with h'
      obtain ⟨s1, _, hg⟩ := bind_some_elim hm
      rw [h'] at hg
      exact group1P_spec hg
    | none =>
      rw [hm] at h
      cases s with
      | nil => exact absurd h (by simp)
      | cons c rest' =>
        have h2 : (if c = '\n' then none else lazyRawPrice n rest') = some (ds, rest) := h
        by_cases hc : c = '\n'
        · rw [if_pos hc] at h2
          exact absurd h2 (by simp)
        · rw [if_neg hc] at h2
          exact ih rest' ds rest h2

/-- The price group of any successful triple match is a nonempty digit
run: `d:` followed by at least one digit is the only way the pattern
completes. -/
theorem matchPaoAt_spec {s : List Char} {kd : List Char × List Char} {rest : List Char}
    (h : matchPaoAt s = some (kd, rest)) :
    ¬ kd.2 = [] ∧ kd.2.all Char.isDigit := by
  unfold matchPaoAt at h
  obtain ⟨sA, _, h⟩ := bind_some_elim h
  obtain ⟨rB, _, h⟩ := bind_some_elim h
  obtain ⟨dB, sB⟩ := rB
  obtain ⟨sC, _, h⟩ := bind_some_elim h
  obtain ⟨rD, _, h⟩ := bind_some_elim h
  obtain ⟨key, sD⟩ := rD
  obtain ⟨sE, _, h⟩ := bind_some_elim h
  obtain ⟨sF, _, h⟩ := bind_some_elim h
  obtain ⟨rG, _, h⟩ := bind_some_elim h
  obtain ⟨dG, sG⟩ := rG
  obtain ⟨sH, _, h⟩ := bind_some_elim h
  obtain ⟨rI, _, h⟩ := bind_some_elim h
  obtain ⟨vI, sI⟩ := rI
  obtain ⟨sJ, _, h⟩ := bind_some_elim h
  obtain ⟨rK, hK, h⟩ := bind_some_elim h
  obtain ⟨ds, sK⟩ := rK
  injection h with h'
  rw [Prod.mk.injEq] at h'
  obtain ⟨hkd, _⟩ := h'
  have hds := lazyRawPrice_spec (sJ.length + 1) sJ ds sK hK
  rw [← hkd]
  exact hds

theorem mem_dictInsert {α : Type} {m : List (String × α)} {k k' : String} {q v' : α}
    (h : (k, q) ∈ dictInsert m k' v') : (k, q) ∈ m ∨ (k = k' ∧ q = v') := by
  unfold dictInsert at h
  by_cases ha : m.any (fun p => p.1 = k')
  · rw [if_pos ha] at h
    rcases List.mem_map.mp h with ⟨p, hp, hpe⟩
    by_cases hpk : p.1 = k'
    · rw [if_pos hpk] at hpe
      right
      exact ⟨(congrArg Prod.fst hpe).symm, (congrArg Prod.snd hpe).symm⟩
    · rw [if_neg hpk] at hpe
      left
      exact hpe ▸ hp
  · rw [if_neg ha] at h
    rcases List.mem_append.mp h with h | h
    · exact Or.inl h
    · have he : (k, q) = (k', v') := List.mem_singleton.mp h
      exact Or.inr ⟨congrArg Prod.fst he, congrArg Prod.snd he⟩

/-- Every entry of a fold of dict assignments comes from the initial dict
or from one of the assigned pairs. -/
theorem mem_foldl_dictInsert {α β : Type} (key : β → String) (val : β → α) :
    ∀ (l : List β) (m : List (String × α)) (k : String) (q : α),
      (k, q) ∈ l.foldl (fun acc b => dictInsert acc (key b) (val b)) m →
      (k, q) ∈ m ∨ ∃ b ∈ l, k = key b ∧ q = val b := by
  intro l
  induction l with
  | nil =>
    intro m k q h
    exact Or.inl h
  | cons x xs ih =>
    intro m k q h
    rcases ih _ k q h with hm | ⟨b, hb, hkb, hqb⟩
    · rcases mem_dictInsert hm with hm' | ⟨hk, hq⟩
      · exact Or.inl hm'
      · exact Or.inr ⟨x, by simp, hk, hq⟩
    · exact Or.inr ⟨b, by simp [hb], hkb, hqb⟩

theorem reFindAll_succ {α : Type} (m : List Char → Option (α × List Char))
    (n : Nat) (s : List Char) :
    reFindAll m (n + 1) s =
      match m s with
      | some (a, s') => a :: reFindAll m n s'
      | none =>
        match s with
        | [] => []
        | _ :: rest => reFindAll m n rest := rfl

/-- Every element of a `reFindAll` result is produced by a successful
match of the matcher at some suffix of the scan. -/
theorem mem_reFindAll {α : Type} (m : List Char → Option (α × List Char)) :
    ∀ (fuel : Nat) (s : List Char) (a : α), a ∈ reFindAll m fuel s →
      ∃ s' rest, m s' = some (a, rest) := by
  intro fuel
  induction fuel with
  | zero =>
    intro s a h
    exact absurd h (by simp [reFindAll])
  | succ n ih =>
    intro s a h
    rw [reFindAll_succ] at h
    cases hm : m s with
    | some r =>
      obtain ⟨a', s'⟩ := r
      rw [hm] at h
      rcases List.mem_cons.mp h with he | htail
      · exact ⟨s, s', by rw [hm, he]⟩
      · exact ih s' a htail
    | none =>
      rw [hm] at h
      cases s with
      | nil => exact absurd h (by simp)
      | cons c rest' => exact ih rest' a h

/-- Every entry of the add-on price table is the value of a nonempty
digit run captured by one triple match, so table prices are always
unsigned integers. -/
theorem paoPrices_entries_from_digit_runs (payload : List Char) (k : String) (q : ℚ)
    (h : (k, q) ∈ paoPricesOfPayload payload) :
    ∃ ds : List Char, ¬ ds = [] ∧ ds.all Char.isDigit ∧ q = ((natOfDigits ds : Nat) : ℚ) := by
  unfold paoPricesOfPayload at h
  rcases mem_foldl_dictInsert (fun kd : List Char × List Char => String.mk kd.1)
      (fun kd : List Char × List Char => ((natOfDigits kd.2 : Nat) : ℚ))
      _ _ k q h with hm | ⟨b, hb, _, hqb⟩
  · exact absurd hm (List.not_mem_nil _)
  · obtain ⟨s', rest, hmatch⟩ := mem_reFindAll matchPaoAt _ _ _ hb
    have hds := matchPaoAt_spec hmatch
    exact ⟨b.2, hds.1, hds.2, hqb⟩

set_option maxRecDepth 16384 in
/-- C10 counterexample: a triple whose `raw_price` is the fractional
`d:12.5` does produce a price-table entry — carrying the integer part
12 — so the derived item for that key gets price 12, not 0; and on a
payload of two triples where the first (`addon`) has the signed
`d:-5`, the first key gains the entry 7 taken from the second triple's
raw price (the second key gains none), so the derived `addon` item gets
price 7 — contradicting both `no entry` consequences of the claim. -/
theorem pao_nondigit_raw_price_cex :
    paoPricesOfPayload paoFractional.data = [("addon", 12)] ∧
    (parse_meta_info addonMapping fracSlot).map (fun it => it.price) = [12] ∧
    paoPricesOfPayload paoTwoTriples.data = [("addon", 7)] ∧
    (parse_meta_info addonMapping twoTripleSlot).map (fun it => it.price) = [7] := by
  exact ⟨by decide, by decide, by decide, by decide⟩

set_option maxRecDepth 16384 in
/-- C10 amended: the add-on price table gains entries only through
matches of the triple pattern whose captured price group is a nonempty
digit run, so every entry's price is an unsigned integer; a fractional
raw price still yields an entry carrying its integer part; a signed raw
price contributes no price itself — with no later triple its key gains
no entry and the derived item's price defaults to 0, while with a later
well-formed triple the pattern's lazy gap pairs the signed triple's key
with the next triple's price; a payload with no matching triples yields
an empty table without raising. -/
theorem pao_price_table_entries_spec :
    (∀ (payload : List Char) (k : String) (q : ℚ),
      (k, q) ∈ paoPricesOfPayload payload →
      ∃ ds : List Char, ¬ ds = [] ∧ ds.all Char.isDigit ∧
        q = ((natOfDigits ds : Nat) : ℚ)) ∧
    paoPricesOfPayload paoFractional.data = [("addon", 12)] ∧
    paoPricesOfPayload paoSigned.data = [] ∧
    (parse_meta_info addonMapping signedSlot).map (fun it => it.price) = [0] ∧
    paoPricesOfPayload paoTwoTriples.data = [("addon", 7)] ∧
    (parse_meta_info addonMapping twoTripleSlot).map (fun it => it.price) = [7] ∧
    paoPricesOfPayload "no serialized triples at all".data = [] ∧
    paoPrices "name:X|quantity:1|total:5" = [] := by
  exact ⟨paoPrices_entries_from_digit_runs, by decide, by decide, by decide,
    by decide, by decide, by decide, by decide⟩

set_option maxRecDepth 16384 in
/-- C10 witness: the table entry 12 of the fractional payload is indeed
the value of a nonempty digit run. -/
theorem pao_price_table_entries_spec_witness :
    ("addon", (12 : ℚ)) ∈ paoPricesOfPayload paoFractional.data ∧
    (∃ ds : List Char, ¬ ds = [] ∧ ds.all Char.isDigit ∧
      (12 : ℚ) = ((natOfDigits ds : Nat) : ℚ)) := by
  exact ⟨by decide,
    pao_price_table_entries_spec.1 paoFractional.data "addon" 12 (by decide)⟩

end Woo
